import Mathlib

/-!
Shallow embedding of the Clianta browser telemetry SDK core pipeline
(event queue, transport retry, consent manager, tracker gating, session
identity, download-URL detection), with theorems settling the spec claims.

Each definition mirrors one function of the TypeScript source:
`src/core/queue.ts`, `src/core/transport.ts`, `src/consent/manager.ts`,
`src/core/tracker.ts`, `src/utils/index.ts`, `src/core/config.ts`.
Browser effects (storage, fetch, timers) are made explicit: storage is a
value threaded through, the fetch environment is a function from attempt
number to outcome, and async interleaving is modelled by splitting
`flush` at its `await` point into a start step and an end step.
-/

namespace Clianta

/-! ## String helpers (JS semantics)

`String.prototype.includes` checked on character lists. -/

/-- Does the character list `hay` start with `needle`? (JS `startsWith`). -/
def strStartsWith : List Char → List Char → Bool
  | [], _ => true
  | _ :: _, [] => false
  | c :: cs, d :: ds => c == d && strStartsWith cs ds

/-- Does `hay` contain `needle` as a contiguous substring? (JS `includes`). -/
def strIncludes : List Char → List Char → Bool
  | needle, [] => needle.isEmpty
  | needle, d :: ds => strStartsWith needle (d :: ds) || strIncludes needle ds

/-- Lowercase one character (JS `toLowerCase` on the ASCII range the URL
allow-list lives in). -/
def jsCharToLower (c : Char) : Char :=
  if c.toNat ≥ 65 && c.toNat ≤ 90 then Char.ofNat (c.toNat + 32) else c

/-- Split a character list on a single-character separator
(JS `String.prototype.split` with a one-character string). -/
def splitOnChar (sep : Char) : List Char → List (List Char)
  | [] => [[]]
  | c :: cs =>
    let rest := splitOnChar sep cs
    if c == sep then [] :: rest
    else
      match rest with
      | [] => [[c]]
      | h :: t => (c :: h) :: t

/-! ## Configuration constants (`src/core/config.ts`) -/

/-- File extensions treated as downloads (`DOWNLOAD_EXTENSIONS`). -/
def DOWNLOAD_EXTENSIONS : List String :=
  [".pdf", ".doc", ".docx", ".xls", ".xlsx", ".ppt", ".pptx",
   ".zip", ".rar", ".tar", ".gz", ".7z",
   ".csv", ".txt", ".json", ".xml",
   ".mp3", ".mp4", ".wav", ".avi", ".mov"]

/-! ## URL utilities (`src/utils/index.ts`) -/

/-- Embeds `isDownloadUrl`: lowercase the URL and test whether any
allow-listed extension occurs anywhere in it (`lowerUrl.includes(ext)`). -/
def isDownloadUrl (url : String) : Bool :=
  let lowerUrl := url.data.map jsCharToLower
  DOWNLOAD_EXTENSIONS.any (fun ext => strIncludes ext.data lowerUrl)

/-- Embeds `getFilenameFromUrl`: last `/`-segment, query string stripped,
`'unknown'` when empty (`url.split('/').pop()?.split('?')[0] || 'unknown'`). -/
def getFilenameFromUrl (url : String) : String :=
  let seg := (splitOnChar '/' url.data).getLastD []
  let name := (splitOnChar '?' seg).headD []
  if name.isEmpty then "unknown" else String.mk name

/-- Embeds `getFileExtension`: part after the last dot of the filename, or
`'unknown'` when the filename has no dot. -/
def getFileExtension (url : String) : String :=
  let filename := (getFilenameFromUrl url).data
  let parts := splitOnChar '.' filename
  if parts.length > 1 then
    let e := parts.getLastD []
    if e.isEmpty then "unknown" else String.mk e
  else "unknown"

/-! ## Session identity (`src/utils/index.ts`, `getOrCreateSessionId`)

Session storage is modelled as a record of the two keys the function
touches: the stored session id (absent or a string; JS treats the empty
string as falsy like absence) and the stored last-activity timestamp
(already parsed; a missing key parses as 0 via `|| '0'`). `Date.now()` and
the freshly generated UUID are passed in explicitly. -/

structure SessionStore where
  sessionId : Option String
  lastActivity : Option Int
  deriving Repr, DecidableEq

/-- JS falsiness of the stored session id: absent or the empty string. -/
def sessionIdFalsy (sid : Option String) : Bool :=
  match sid with
  | none => true
  | some s => s == ""

/-- Embeds `getOrCreateSessionId(timeout)`: regenerate when no session id is
stored or `now - lastActivity > timeout`; always rewrite the last-activity
key with `now`. Returns the session id and the updated storage. -/
def getOrCreateSessionId (timeout now : Int) (fresh : String)
    (st : SessionStore) : String × SessionStore :=
  let lastActivity := st.lastActivity.getD 0
  let regen := sessionIdFalsy st.sessionId || decide (now - lastActivity > timeout)
  let sid := if regen then fresh else st.sessionId.getD ""
  (sid, { sessionId := some sid, lastActivity := some now })

/-! ## Tracking events (`src/types.ts`)

The envelope fields the modelled pipeline actually inspects or rewrites;
the remaining payload (url, referrer, properties, device, utm, timestamp,
sdkVersion) is bundled as an opaque string since no modelled operation
examines it. -/

structure TrackingEvent where
  workspaceId : String
  visitorId : String
  sessionId : String
  eventType : String
  eventName : String
  payload : String
  deriving Repr, DecidableEq

/-! ## Consent manager (`src/consent/manager.ts`)

`ConsentState` has three independent categories; in TypeScript each is
`boolean | undefined` and absence is not false, so each field is
`Option Bool`. A partial update (`Partial<ConsentState>` spread) is a
second copy of the record where `none` means "key not provided". -/

structure ConsentState where
  analytics : Option Bool
  marketing : Option Bool
  personalization : Option Bool
  deriving Repr, DecidableEq

/-- Overwrite one field when the partial update provides it. -/
def mergeField (old upd : Option Bool) : Option Bool :=
  match upd with
  | some b => some b
  | none => old

/-- Spread merge `{...s, ...p}`: keys provided in `p` overwrite `s`. -/
def mergeConsent (s p : ConsentState) : ConsentState where
  analytics := mergeField s.analytics p.analytics
  marketing := mergeField s.marketing p.marketing
  personalization := mergeField s.personalization p.personalization

/-- Consent configuration after the constructor's defaulting spread. -/
structure ConsentCfg where
  defaultConsent : ConsentState
  waitForConsent : Bool
  deriving Repr, DecidableEq

/-- The three consent categories (`keyof ConsentState`). -/
inductive ConsentCategory where
  | analytics
  | marketing
  | personalization
  deriving Repr, DecidableEq

/-- Mutable state of a `ConsentManager` instance. -/
structure ConsentMgr where
  cfg : ConsentCfg
  state : ConsentState
  hasExplicitConsent : Bool
  eventBuffer : List TrackingEvent
  deriving Repr, DecidableEq

/-- Embeds the `ConsentManager` constructor: load stored consent (explicit)
or fall back to the configured default (not explicit); buffer empty. -/
def mkConsentManager (cfg : ConsentCfg) (stored : Option ConsentState) : ConsentMgr :=
  match stored with
  | some s => { cfg := cfg, state := s, hasExplicitConsent := true, eventBuffer := [] }
  | none => { cfg := cfg, state := cfg.defaultConsent, hasExplicitConsent := false,
              eventBuffer := [] }

/-- Embeds `grant(categories)`: spread-merge into the state and mark
consent explicit. -/
def ConsentMgr.grant (m : ConsentMgr) (categories : ConsentState) : ConsentMgr :=
  { m with state := mergeConsent m.state categories, hasExplicitConsent := true }

/-- Force one category to `false` (the loop body of `revoke`). -/
def setCategoryFalse (s : ConsentState) : ConsentCategory → ConsentState
  | ConsentCategory.analytics => { s with analytics := some false }
  | ConsentCategory.marketing => { s with marketing := some false }
  | ConsentCategory.personalization => { s with personalization := some false }

/-- Embeds `revoke(categories)`: listed categories become `false`; consent
becomes explicit. -/
def ConsentMgr.revoke (m : ConsentMgr) (categories : List ConsentCategory) : ConsentMgr :=
  { m with state := categories.foldl setCategoryFalse m.state, hasExplicitConsent := true }

/-- Embeds `update(state)`: wholesale replacement; consent becomes explicit. -/
def ConsentMgr.update (m : ConsentMgr) (s : ConsentState) : ConsentMgr :=
  { m with state := s, hasExplicitConsent := true }

/-- Embeds `canTrack()`: blocked when `waitForConsent` is set and no
explicit consent was ever recorded; otherwise permitted iff
`analytics === true`. -/
def ConsentMgr.canTrack (m : ConsentMgr) : Bool :=
  if m.cfg.waitForConsent && !m.hasExplicitConsent then false
  else m.state.analytics == some true

/-- Embeds `bufferEvent(event)`: append to the in-memory buffer
(`this.eventBuffer.push(event)` — the source has no size cap). -/
def ConsentMgr.bufferEvent (m : ConsentMgr) (e : TrackingEvent) : ConsentMgr :=
  { m with eventBuffer := m.eventBuffer ++ [e] }

/-- Embeds `flushBuffer()`: drain and return the buffer. -/
def ConsentMgr.flushBuffer (m : ConsentMgr) : List TrackingEvent × ConsentMgr :=
  (m.eventBuffer, { m with eventBuffer := [] })

/-- Embeds `getBufferSize()`. -/
def ConsentMgr.getBufferSize (m : ConsentMgr) : Nat :=
  m.eventBuffer.length

/-! ## Event queue (`src/core/queue.ts`)

The queue is generic in the event type (the source never inspects event
fields). `flush()` is an async method whose body runs synchronously up to
`await this.transport.sendEvents(events)`; it is therefore modelled as two
steps: `flushStart` (the guard, the splice, persisting `[]`, and the
transport call — recorded in a call log together with the consent flag at
that moment) and `flushEnd` (the continuation after the transport result
resolves). `persisted` mirrors the localStorage snapshot written by
`persistQueue`; `calls` is the observation log of `sendEvents`
invocations. -/

structure QueueCfg where
  batchSize : Nat
  maxQueueSize : Nat
  deriving Repr, DecidableEq

/-- Default queue configuration (`batchSize ?? 10`,
`maxQueueSize ?? MAX_QUEUE_SIZE = 1000`). -/
def defaultQueueCfg : QueueCfg :=
  { batchSize := 10, maxQueueSize := 1000 }

/-- One recorded `sendEvents` call: the batch handed to the transport and
whether `canTrack()` held at that moment (true in contexts with no consent
manager). -/
structure SendRecord (α : Type) where
  events : List α
  consentOk : Bool
  deriving Repr, DecidableEq

structure QueueState (α : Type) where
  queue : List α
  isFlushing : Bool
  inFlight : List α
  persisted : List α
  calls : List (SendRecord α)
  deriving Repr, DecidableEq

/-- Embeds the `EventQueue` constructor's queue restoration: the persisted
snapshot (if any) becomes the live queue; nothing is written back. -/
def mkQueue (stored : List α) : QueueState α :=
  { queue := stored, isFlushing := false, inFlight := [], persisted := stored, calls := [] }

/-- Embeds the synchronous part of `flush()`: no-op when a flush is in
flight or the queue is empty; otherwise splice the whole queue into a
batch, persist `[]`, and invoke `sendEvents` (logged with the consent flag
`ok` valid at this moment). -/
def flushStart (ok : Bool) (s : QueueState α) : QueueState α :=
  if s.isFlushing || s.queue.isEmpty then s
  else
    { queue := [], isFlushing := true, inFlight := s.queue, persisted := [],
      calls := s.calls ++ [{ events := s.queue, consentOk := ok }] }

/-- Embeds the continuation of `flush()` after `sendEvents` resolves with
`success`: on failure the batch is unshifted back to the front and the new
queue persisted; either way the in-flight flag clears. -/
def flushEnd (success : Bool) (s : QueueState α) : QueueState α :=
  if success then { s with isFlushing := false, inFlight := [] }
  else
    { s with queue := s.inFlight ++ s.queue, persisted := s.inFlight ++ s.queue,
             isFlushing := false, inFlight := [] }

/-- Embeds `push(event)`: evict the oldest entry when the queue is at
`maxQueueSize`, append, and trigger `flush()` when the batch size is
reached (the triggered flush runs its synchronous part immediately). -/
def pushQ (cfg : QueueCfg) (ok : Bool) (e : α) (s : QueueState α) : QueueState α :=
  let q0 := if s.queue.length ≥ cfg.maxQueueSize then s.queue.tail else s.queue
  let s1 := { s with queue := q0 ++ [e] }
  if s1.queue.length ≥ cfg.batchSize then flushStart ok s1 else s1

/-- A sequence of `push` calls. -/
def pushAll (cfg : QueueCfg) (ok : Bool) (evs : List α) (s : QueueState α) : QueueState α :=
  evs.foldl (fun st e => pushQ cfg ok e st) s

/-! ## Transport (`src/core/transport.ts`)

One `fetchWithTimeout` call either yields an HTTP response with a status
code or throws a network-level exception; the environment maps each
attempt number to its outcome (exceptions carry an identifier so "the last
error" is expressible). `send` starts at `attempt = 1`; `response.ok`
is status 200–299; retry on status ≥ 500 or exception while
`attempt < maxRetries`. The retry delay only schedules the next attempt
and does not affect the result, so it is not modelled. Alongside the
result, `send` returns the attempt number that produced it; since attempts
are numbered consecutively from 1, that number is the total count of fetch
calls made. -/

inductive FetchOutcome where
  | resp (status : Nat)
  | netError (errId : Nat)
  deriving Repr, DecidableEq

structure TransportResult where
  success : Bool
  status : Option Nat
  error : Option Nat
  deriving Repr, DecidableEq

structure TransportCfg where
  maxRetries : Nat
  deriving Repr, DecidableEq

/-- Default transport configuration (`maxRetries ?? DEFAULT_MAX_RETRIES = 3`). -/
def defaultTransportCfg : TransportCfg := { maxRetries := 3 }

/-- Embeds the private `send(url, payload, attempt)` retry loop. -/
def send (cfg : TransportCfg) (env : Nat → FetchOutcome) (attempt : Nat) :
    TransportResult × Nat :=
  match env attempt with
  | FetchOutcome.resp st =>
    if 200 ≤ st ∧ st < 300 then
      ({ success := true, status := some st, error := none }, attempt)
    else if h : 500 ≤ st ∧ attempt < cfg.maxRetries then
      send cfg env (attempt + 1)
    else
      ({ success := false, status := some st, error := none }, attempt)
  | FetchOutcome.netError e =>
    if h : attempt < cfg.maxRetries then
      send cfg env (attempt + 1)
    else
      ({ success := false, status := none, error := some e }, attempt)
termination_by cfg.maxRetries - attempt
decreasing_by
  · omega
  · omega

/-- Embeds `sendEvents(events)`: a `send` from attempt 1. -/
def sendEvents (cfg : TransportCfg) (env : Nat → FetchOutcome) : TransportResult × Nat :=
  send cfg env 1

/-! ## Tracker (`src/core/tracker.ts`, the Clianta class)

State of an initialized tracker: its consent manager and its event queue.
The event envelope that `track()` builds reads browser state (URL,
referrer, device, UTM, clock), so the constructed `TrackingEvent` is taken
as an input of the step. Operations needed by the claims: construction
(restoring a persisted queue and stored consent), `track`, the consent
mutations (with the tracker's `onConsentChange` handler), and the two
phases of a queue flush (a timer tick or manual `flush()` delegates to the
queue). -/

structure TrackerState where
  consent : ConsentMgr
  queueSt : QueueState TrackingEvent
  deriving Repr, DecidableEq

/-- Embeds tracker construction for the pipeline: the consent manager loads
stored consent, the queue restores its persisted snapshot. -/
def mkTracker (ccfg : ConsentCfg) (storedConsent : Option ConsentState)
    (storedQueue : List TrackingEvent) : TrackerState :=
  { consent := mkConsentManager ccfg storedConsent, queueSt := mkQueue storedQueue }

/-- Embeds `track(...)` after envelope construction: when `canTrack()`
fails, buffer the event (`waitForConsent`) or drop it; otherwise push it
onto the queue (which may trigger a flush whose `sendEvents` call happens
at this moment of consent). -/
def track (qcfg : QueueCfg) (e : TrackingEvent) (s : TrackerState) : TrackerState :=
  if !s.consent.canTrack then
    if s.consent.cfg.waitForConsent then { s with consent := s.consent.bufferEvent e }
    else s
  else
    { s with queueSt := pushQ qcfg s.consent.canTrack e s.queueSt }

/-- Embeds the tracker's `onConsentChange` handler: when analytics consent
was just granted, drain the consent buffer and push each buffered event —
rewritten to the (possibly upgraded) visitor id — onto the queue. -/
def onConsentChange (qcfg : QueueCfg) (visitorId : String)
    (newState previous : ConsentState) (s : TrackerState) : TrackerState :=
  if newState.analytics == some true && !(previous.analytics == some true) then
    let (buffered, consent2) := s.consent.flushBuffer
    let s2 := { s with consent := consent2 }
    buffered.foldl
      (fun st ev =>
        let ev2 := { ev with visitorId := visitorId }
        { st with queueSt := pushQ qcfg st.consent.canTrack ev2 st.queueSt })
      s2
  else s

/-- Embeds the consent-revocation entry point: `ConsentManager.revoke`
followed by the registered `onConsentChange` callback. -/
def revokeOp (qcfg : QueueCfg) (visitorId : String) (categories : List ConsentCategory)
    (s : TrackerState) : TrackerState :=
  let previous := s.consent.state
  let s1 := { s with consent := s.consent.revoke categories }
  onConsentChange qcfg visitorId s1.consent.state previous s1

/-- Embeds `grant` at tracker level: `ConsentManager.grant` followed by the
`onConsentChange` callback. -/
def grantOp (qcfg : QueueCfg) (visitorId : String) (categories : ConsentState)
    (s : TrackerState) : TrackerState :=
  let previous := s.consent.state
  let s1 := { s with consent := s.consent.grant categories }
  onConsentChange qcfg visitorId s1.consent.state previous s1

/-- Embeds a timer tick or manual `flush()`: the queue's `flushStart`,
tagged with the value of `canTrack()` at this moment. -/
def flushTick (s : TrackerState) : TrackerState :=
  { s with queueSt := flushStart s.consent.canTrack s.queueSt }

/-- Embeds the completion of an in-flight flush with the transport result. -/
def flushDone (success : Bool) (s : TrackerState) : TrackerState :=
  { s with queueSt := flushEnd success s.queueSt }

/-! ## Auxiliary definitions for statements and witnesses -/

/-- The last `n` elements of a list, in order. -/
def takeLast (n : Nat) (l : List α) : List α :=
  l.drop (l.length - n)

/-- A sample tracking event used in concrete evaluations. -/
def evA : TrackingEvent :=
  { workspaceId := "w1", visitorId := "v1", sessionId := "s1",
    eventType := "custom", eventName := "e1", payload := "" }

/-- A consent configuration with `waitForConsent` enabled and the default
consent state of `config.ts` (`analytics: true`). -/
def cfgWait : ConsentCfg :=
  { defaultConsent := { analytics := some true, marketing := some false,
                        personalization := some false },
    waitForConsent := true }

/-- The default consent configuration of `config.ts` (`waitForConsent:
false`, `analytics: true`). -/
def cfgNoWait : ConsentCfg :=
  { defaultConsent := { analytics := some true, marketing := some false,
                        personalization := some false },
    waitForConsent := false }

/-! ## Theorems -/

/-- C9: `getOrCreateSessionId` regenerates a new session id exactly when no
session id is stored (absent or empty, JS-falsy) or `now` minus the stored
last-activity timestamp strictly exceeds the configured timeout, and every
call — regenerating or not — writes `now` as the new last-activity
timestamp (sliding expiration). -/
theorem getOrCreateSessionId_sliding_expiration (timeout now : Int) (fresh : String)
    (st : SessionStore) :
    (getOrCreateSessionId timeout now fresh st).2.lastActivity = some now
    ∧ ((sessionIdFalsy st.sessionId = true ∨ now - st.lastActivity.getD 0 > timeout) →
        (getOrCreateSessionId timeout now fresh st).1 = fresh)
    ∧ ((sessionIdFalsy st.sessionId = false ∧ ¬ now - st.lastActivity.getD 0 > timeout) →
        (getOrCreateSessionId timeout now fresh st).1 = st.sessionId.getD ""
        ∧ (getOrCreateSessionId timeout now fresh st).2.sessionId = st.sessionId) := by
  unfold getOrCreateSessionId
  refine ⟨rfl, ?_, ?_⟩
  · intro h
    have : (sessionIdFalsy st.sessionId || decide (now - st.lastActivity.getD 0 > timeout)) = true := by
      rcases h with h | h
      · simp [h]
      · simp [h]
    simp [this]
  · rintro ⟨h1, h2⟩
    have hb : (sessionIdFalsy st.sessionId || decide (now - st.lastActivity.getD 0 > timeout)) = false := by
      simp [h1, h2]
    refine ⟨by simp [hb], ?_⟩
    simp only [hb, Bool.false_eq_true, if_false]
    cases hs : st.sessionId with
    | none => simp [sessionIdFalsy, hs] at h1
    | some s => simp [hs]

/-- Witness for C9 at a concrete input: stored id `"abc"`, last activity
100, now 200, timeout 50 — the session expired, so the fresh id is
returned and the timestamp is rewritten to 200. -/
theorem getOrCreateSessionId_sliding_expiration_witness :
    (getOrCreateSessionId 50 200 "new" ⟨some "abc", some 100⟩).2.lastActivity = some 200
    ∧ (getOrCreateSessionId 50 200 "new" ⟨some "abc", some 100⟩).1 = "new" := by
  have h := getOrCreateSessionId_sliding_expiration 50 200 "new" ⟨some "abc", some 100⟩
  exact ⟨h.1, h.2.1 (Or.inr (by norm_num))⟩

/-- C8: with `waitForConsent` configured and no stored consent,
`canTrack()` is `false` whatever the default analytics value; once consent
is explicit, `canTrack()` is `true` iff `analytics` is exactly `true`;
loading stored consent, `grant`, `revoke` and `update` all make consent
explicit. -/
theorem canTrack_waitForConsent_contract :
    (∀ cfg : ConsentCfg, cfg.waitForConsent = true →
      (mkConsentManager cfg none).canTrack = false)
    ∧ (∀ m : ConsentMgr, m.hasExplicitConsent = true →
        (m.canTrack = true ↔ m.state.analytics = some true))
    ∧ (∀ cfg s, (mkConsentManager cfg (some s)).hasExplicitConsent = true)
    ∧ (∀ m p, (ConsentMgr.grant m p).hasExplicitConsent = true)
    ∧ (∀ m cats, (ConsentMgr.revoke m cats).hasExplicitConsent = true)
    ∧ (∀ m s, (ConsentMgr.update m s).hasExplicitConsent = true) := by
  refine ⟨?_, ?_, ?_, ?_, ?_, ?_⟩
  · intro cfg h
    simp [mkConsentManager, ConsentMgr.canTrack, h]
  · intro m h
    simp [ConsentMgr.canTrack, h]
  · intro cfg s; rfl
  · intro m p; rfl
  · intro m cats; rfl
  · intro m s; rfl

/-- Witness for C8: `waitForConsent: true` with default `analytics: true`
still yields `canTrack() = false`, while an explicit `update` with
`analytics: true` yields `canTrack() = true`. -/
theorem canTrack_waitForConsent_contract_witness :
    (mkConsentManager cfgWait none).canTrack = false
    ∧ ((mkConsentManager cfgWait none).update
        { analytics := some true, marketing := some false,
          personalization := some false }).canTrack = true := by
  have h := canTrack_waitForConsent_contract
  refine ⟨h.1 cfgWait rfl, ?_⟩
  have h2 := h.2.1 ((mkConsentManager cfgWait none).update
    { analytics := some true, marketing := some false, personalization := some false })
    (h.2.2.2.2.2 (mkConsentManager cfgWait none)
      { analytics := some true, marketing := some false, personalization := some false })
  exact h2.mpr rfl

set_option maxRecDepth 20000 in
/-- C3 (code evaluation at the failing input): `bufferEvent` in
`src/consent/manager.ts` pushes unconditionally — after 101 consecutive
`bufferEvent()` calls on a fresh manager the in-memory buffer holds 101
events, exceeding the 100-entry cap asserted by the spec and by the
repository's own test (`should limit buffer size to 100 events`). -/
theorem bufferEvent_uncapped_eval :
    ((List.replicate 101 evA).foldl ConsentMgr.bufferEvent
      (mkConsentManager cfgWait none)).getBufferSize = 101 := by
  decide

set_option maxRecDepth 40000 in
/-- C2 (code evaluation at the failing input): `EventQueue.push` in
`src/core/queue.ts` contains no rate limiter — 105 pushes within one
window (batch size 200 to keep auto-flush out of the way, as in the
repository's own rate-limit test) leave all 105 events in the queue and
forward none, where the spec, the changelog and `queue.test.ts` require
events beyond 100 per 60s to be dropped. -/
theorem push_no_rate_limit_eval :
    (pushAll { batchSize := 200, maxQueueSize := 1000 } true
      (List.replicate 105 evA) (mkQueue [])).queue.length = 105
    ∧ (pushAll { batchSize := 200, maxQueueSize := 1000 } true
        (List.replicate 105 evA) (mkQueue [])).calls = [] := by
  constructor
  · decide
  · decide

/-- `strStartsWith` detects exactly the lists that extend `needle`. -/
theorem strStartsWith_iff (needle hay : List Char) :
    strStartsWith needle hay = true ↔ ∃ r, hay = needle ++ r := by
  induction needle generalizing hay with
  | nil => simp [strStartsWith]
  | cons c cs ih =>
    cases hay with
    | nil => simp [strStartsWith]
    | cons d ds =>
      simp only [strStartsWith, Bool.and_eq_true, beq_iff_eq, ih, List.cons_append,
        List.cons.injEq]
      constructor
      · rintro ⟨hcd, r, hr⟩
        exact ⟨r, hcd.symm, hr⟩
      · rintro ⟨r, hdc, hr⟩
        exact ⟨hdc.symm, r, hr⟩

/-- `strIncludes` detects exactly contiguous-substring occurrence. -/
theorem strIncludes_iff (needle hay : List Char) :
    strIncludes needle hay = true ↔ ∃ l r, hay = l ++ needle ++ r := by
  induction hay with
  | nil =>
    simp only [strIncludes, List.isEmpty_iff]
    constructor
    · intro h
      exact ⟨[], [], by simp [h]⟩
    · rintro ⟨l, r, hr⟩
      rcases List.append_eq_nil.mp (List.append_eq_nil.mp hr.symm).1 with ⟨-, h2⟩
      exact h2
  | cons d ds ih =>
    simp only [strIncludes, Bool.or_eq_true, strStartsWith_iff, ih]
    constructor
    · rintro (⟨r, hr⟩ | ⟨l, r, hr⟩)
      · exact ⟨[], r, by simp [hr]⟩
      · exact ⟨d :: l, r, by simp [hr]⟩
    · rintro ⟨l, r, hr⟩
      cases l with
      | nil =>
        exact Or.inl ⟨r, by simpa using hr⟩
      | cons x l' =>
        simp only [List.cons_append, List.cons.injEq] at hr
        exact Or.inr ⟨l', r, hr.2⟩

set_option maxRecDepth 40000 in
/-- C10: `isDownloadUrl(url)` returns true iff the lowercased URL contains
one of the allow-listed extension strings as a contiguous substring
anywhere — including a query string, not only the terminal file extension:
the URL `https://x.com/page.html?doc=.pdf`, whose final path segment has
extension `html`, is still classified as a download. -/
theorem isDownloadUrl_substring_anywhere :
    (∀ url : String, isDownloadUrl url = true ↔
      ∃ ext ∈ DOWNLOAD_EXTENSIONS, ∃ l r, url.data.map jsCharToLower = l ++ ext.data ++ r)
    ∧ isDownloadUrl "https://x.com/page.html?doc=.pdf" = true
    ∧ getFileExtension "https://x.com/page.html?doc=.pdf" = "html" := by
  refine ⟨?_, ?_, ?_⟩
  · intro url
    simp [isDownloadUrl, List.any_eq_true, strIncludes_iff]
  · decide
  · decide

/-- Witness for C10: the substring characterization applied at a concrete
URL whose `.zip` occurrence is the terminal extension. -/
theorem isDownloadUrl_substring_anywhere_witness :
    isDownloadUrl "https://x.com/files.zip" = true := by
  have h := isDownloadUrl_substring_anywhere
  exact (h.1 "https://x.com/files.zip").mpr
    ⟨".zip", by decide, "https://x.com/files".data, [], by decide⟩

/-- When every fetch attempt throws a network-level exception, `send`
exhausts its retries: starting from any in-range attempt it returns a
failure carrying the error of attempt `maxRetries`, after the fetch call
numbered `maxRetries`. -/
theorem send_allNetError (cfg : TransportCfg) (f : Nat → Nat) :
    ∀ k attempt, cfg.maxRetries - attempt = k → 1 ≤ attempt → attempt ≤ cfg.maxRetries →
      send cfg (fun n => FetchOutcome.netError (f n)) attempt
        = ({ success := false, status := none, error := some (f cfg.maxRetries) },
           cfg.maxRetries) := by
  intro k
  induction k with
  | zero =>
    intro attempt hk h1 h2
    have heq : attempt = cfg.maxRetries := by omega
    rw [send.eq_def]
    simp only []
    rw [dif_neg (by omega)]
    simp [heq]
  | succ k ih =>
    intro attempt hk h1 h2
    have hlt : attempt < cfg.maxRetries := by omega
    rw [send.eq_def]
    simp only []
    rw [dif_pos hlt]
    exact ih (attempt + 1) (by omega) (by omega) (by omega)

/-- C4: a 400 response yields exactly one fetch attempt and an immediate
failure (no retry); a 500 followed by a 200 yields exactly two attempts
and success; a run of network-level exceptions exhausts retries after
exactly `maxRetries` attempts, failing with the last error. The second
component of the result is the number of the attempt that produced it,
i.e. the total fetch-call count. -/
theorem transport_retry_policy (cfg : TransportCfg) :
    (∀ env : Nat → FetchOutcome, env 1 = FetchOutcome.resp 400 →
      sendEvents cfg env = ({ success := false, status := some 400, error := none }, 1))
    ∧ (∀ env : Nat → FetchOutcome, env 1 = FetchOutcome.resp 500 →
        env 2 = FetchOutcome.resp 200 → 2 ≤ cfg.maxRetries →
        sendEvents cfg env = ({ success := true, status := some 200, error := none }, 2))
    ∧ (∀ f : Nat → Nat, 1 ≤ cfg.maxRetries →
        sendEvents cfg (fun n => FetchOutcome.netError (f n))
          = ({ success := false, status := none, error := some (f cfg.maxRetries) },
             cfg.maxRetries)) := by
  refine ⟨?_, ?_, ?_⟩
  · intro env h
    rw [sendEvents, send.eq_def, h]
    norm_num
  · intro env h1 h2 hmax
    have h2' : env (1 + 1) = FetchOutcome.resp 200 := h2
    rw [sendEvents, send.eq_def, h1]
    simp only []
    rw [if_neg (by omega), dif_pos ⟨by omega, by omega⟩]
    rw [send.eq_def, h2']
    norm_num
  · intro f hmax
    exact send_allNetError cfg f (cfg.maxRetries - 1) 1 rfl le_rfl hmax

/-- Witness for C4 with the default configuration (`maxRetries = 3`) and
concrete fetch environments: a constant-400 environment, a 500-then-200
environment, and an all-network-error environment whose errors are the
attempt numbers. -/
theorem transport_retry_policy_witness :
    sendEvents defaultTransportCfg (fun _ => FetchOutcome.resp 400)
      = ({ success := false, status := some 400, error := none }, 1)
    ∧ sendEvents defaultTransportCfg
        (fun n => if n = 1 then FetchOutcome.resp 500 else FetchOutcome.resp 200)
      = ({ success := true, status := some 200, error := none }, 2)
    ∧ sendEvents defaultTransportCfg (fun n => FetchOutcome.netError n)
      = ({ success := false, status := none, error := some 3 }, 3) := by
  have h := transport_retry_policy defaultTransportCfg
  refine ⟨h.1 _ rfl, h.2.1 _ rfl rfl (by norm_num [defaultTransportCfg]), ?_⟩
  exact h.2.2 (fun n => n) (by norm_num [defaultTransportCfg])

/-- Starting a flush on a non-flushing, non-empty queue takes the whole
queue in flight, clears the persisted snapshot, and logs one `sendEvents`
call. -/
theorem flushStart_eq {α : Type} (ok : Bool) (s : QueueState α)
    (h1 : s.isFlushing = false) (h2 : s.queue ≠ []) :
    flushStart ok s =
      { queue := [], isFlushing := true, inFlight := s.queue, persisted := [],
        calls := s.calls ++ [{ events := s.queue, consentOk := ok }] } := by
  have hne : s.queue.isEmpty = false := by
    cases hq : s.queue with
    | nil => exact absurd hq h2
    | cons a l => rfl
  unfold flushStart
  rw [h1, hne]
  simp

/-- C5: a second `flush()` issued while a first one is still in flight is a
no-op (discarded, not queued), and across the whole window — first flush
started, second flush requested, first flush completed — `sendEvents` is
invoked exactly once. -/
theorem flush_reentrancy_single_send {α : Type} (ok ok2 res : Bool) (s : QueueState α)
    (h1 : s.isFlushing = false) (h2 : s.queue ≠ []) :
    flushStart ok2 (flushStart ok s) = flushStart ok s
    ∧ (flushEnd res (flushStart ok2 (flushStart ok s))).calls.length
        = s.calls.length + 1 := by
  have hs := flushStart_eq ok s h1 h2
  have hsecond : flushStart ok2 (flushStart ok s) = flushStart ok s := by
    rw [hs]
    unfold flushStart
    simp
  refine ⟨hsecond, ?_⟩
  rw [hsecond, hs]
  unfold flushEnd
  cases res <;> simp

/-- Witness for C5: a one-event queue, two flush starts, then completion —
exactly one logged transport call and the second start changed nothing. -/
theorem flush_reentrancy_single_send_witness :
    flushStart true (flushStart true (mkQueue [0])) = flushStart true (mkQueue ([0] : List Nat))
    ∧ (flushEnd true (flushStart true (flushStart true (mkQueue ([0] : List Nat))))).calls.length
        = (mkQueue ([0] : List Nat)).calls.length + 1 :=
  flush_reentrancy_single_send true true true (mkQueue [0]) rfl (by simp [mkQueue])

/-- Pushing while a flush is in flight only appends: the eviction guard
cannot fire below `maxQueueSize` and the batch-threshold flush trigger is
blocked by the in-flight flag. -/
theorem pushAll_while_flushing {α : Type} (cfg : QueueCfg) (ok : Bool) :
    ∀ (ps : List α) (s : QueueState α), s.isFlushing = true →
      s.queue.length + ps.length ≤ cfg.maxQueueSize →
      pushAll cfg ok ps s = { s with queue := s.queue ++ ps } := by
  intro ps
  induction ps with
  | nil =>
    intro s h1 h2
    simp [pushAll]
  | cons e rest ih =>
    intro s h1 h2
    have h2' : s.queue.length + (rest.length + 1) ≤ cfg.maxQueueSize := by
      simpa using h2
    have hlen : ¬ s.queue.length ≥ cfg.maxQueueSize := by omega
    have hpush : pushQ cfg ok e s = { s with queue := s.queue ++ [e] } := by
      unfold pushQ
      rw [if_neg hlen]
      unfold flushStart
      rw [h1]
      simp
    have hstep : pushAll cfg ok (e :: rest) s = pushAll cfg ok rest (pushQ cfg ok e s) := by
      simp [pushAll]
    rw [hstep, hpush,
      ih { s with queue := s.queue ++ [e] } h1 (by simp only [List.length_append]; simp; omega)]
    simp

/-- C6: when the transport reports failure, the batch taken by the flush is
reinserted at the front of the live queue, ahead of everything pushed
while the flush was in flight, and the resulting queue is persisted; in
particular every event present at the start of the flush is present
afterwards and the queue length is the original length plus the
during-flight pushes. -/
theorem flush_failure_requeues_front {α : Type} (cfg : QueueCfg) (ok ok2 : Bool)
    (s : QueueState α) (ps : List α)
    (h1 : s.isFlushing = false) (h2 : s.queue ≠ []) (h3 : ps.length ≤ cfg.maxQueueSize) :
    (flushEnd false (pushAll cfg ok2 ps (flushStart ok s))).queue = s.queue ++ ps
    ∧ (flushEnd false (pushAll cfg ok2 ps (flushStart ok s))).persisted = s.queue ++ ps
    ∧ (flushEnd false (pushAll cfg ok2 ps (flushStart ok s))).queue.length
        = s.queue.length + ps.length
    ∧ (flushEnd false (pushAll cfg ok2 ps (flushStart ok s))).isFlushing = false := by
  rw [flushStart_eq ok s h1 h2]
  rw [pushAll_while_flushing cfg ok2 ps _ rfl (by simpa using h3)]
  unfold flushEnd
  simp

/-- Witness for C6: two queued events, one event pushed while the failing
flush is in flight — both original events survive at the front, the queue
is persisted, and its length is 2 + 1. -/
theorem flush_failure_requeues_front_witness :
    (flushEnd false (pushAll defaultQueueCfg true [3]
        (flushStart true (mkQueue ([1, 2] : List Nat))))).queue = [1, 2] ++ [3]
    ∧ (flushEnd false (pushAll defaultQueueCfg true [3]
        (flushStart true (mkQueue ([1, 2] : List Nat))))).persisted = [1, 2] ++ [3]
    ∧ (flushEnd false (pushAll defaultQueueCfg true [3]
        (flushStart true (mkQueue ([1, 2] : List Nat))))).queue.length = 2 + 1
    ∧ (flushEnd false (pushAll defaultQueueCfg true [3]
        (flushStart true (mkQueue ([1, 2] : List Nat))))).isFlushing = false :=
  flush_failure_requeues_front defaultQueueCfg true true (mkQueue [1, 2]) [3]
    rfl (by simp [mkQueue]) (by simp [defaultQueueCfg])

/-- Starting a flush never grows the queue. -/
theorem flushStart_queue_le {α : Type} (ok : Bool) (s : QueueState α) :
    (flushStart ok s).queue.length ≤ s.queue.length := by
  unfold flushStart
  split
  · exact le_rfl
  · simp

/-- The evict-then-append step of `push` stays within the capacity. -/
theorem evict_append_length_le {α : Type} (n : Nat) (hn : 0 < n) (l : List α) (e : α)
    (hl : l.length ≤ n) :
    ((if l.length ≥ n then l.tail else l) ++ [e]).length ≤ n := by
  by_cases hq : l.length ≥ n
  · rw [if_pos hq]
    simp only [List.length_append, List.length_tail, List.length_singleton]
    omega
  · rw [if_neg hq]
    simp only [List.length_append, List.length_singleton]
    omega

/-- One `push` keeps the queue within `maxQueueSize`. -/
theorem pushQ_length_le {α : Type} (cfg : QueueCfg) (ok : Bool) (e : α) (s : QueueState α)
    (h : 0 < cfg.maxQueueSize) (hs : s.queue.length ≤ cfg.maxQueueSize) :
    (pushQ cfg ok e s).queue.length ≤ cfg.maxQueueSize := by
  have hbound := evict_append_length_le cfg.maxQueueSize h s.queue e hs
  simp only [pushQ]
  by_cases hq : s.queue.length ≥ cfg.maxQueueSize
  · rw [if_pos hq] at hbound ⊢
    split
    · exact le_trans (flushStart_queue_le ok _) hbound
    · exact hbound
  · rw [if_neg hq] at hbound ⊢
    split
    · exact le_trans (flushStart_queue_le ok _) hbound
    · exact hbound

/-- Any sequence of pushes keeps the queue within `maxQueueSize`. -/
theorem pushAll_length_le {α : Type} (cfg : QueueCfg) (ok : Bool) (h : 0 < cfg.maxQueueSize) :
    ∀ (evs : List α) (s : QueueState α), s.queue.length ≤ cfg.maxQueueSize →
      (pushAll cfg ok evs s).queue.length ≤ cfg.maxQueueSize := by
  intro evs
  induction evs with
  | nil => intro s hs; simpa [pushAll] using hs
  | cons e rest ih =>
    intro s hs
    have hstep : pushAll cfg ok (e :: rest) s = pushAll cfg ok rest (pushQ cfg ok e s) := by
      simp [pushAll]
    rw [hstep]
    exact ih _ (pushQ_length_le cfg ok e s h hs)

/-- `takeLast` returns at most `n` elements. -/
theorem takeLast_length_le {α : Type} (n : Nat) (l : List α) : (takeLast n l).length ≤ n := by
  simp only [takeLast, List.length_drop]
  omega

/-- Appending one element to a list no longer than `n` and keeping the last
`n` elements is exactly the push step's evict-then-append. -/
theorem takeLast_append_elt {α : Type} (n : Nat) (hn : 0 < n) (l : List α) (e : α)
    (hl : l.length ≤ n) :
    takeLast n (l ++ [e]) = (if l.length ≥ n then l.tail else l) ++ [e] := by
  by_cases hq : l.length ≥ n
  · have hln : l.length = n := le_antisymm hl hq
    rw [if_pos hq]
    unfold takeLast
    simp only [List.length_append, List.length_singleton]
    rw [show l.length + 1 - n = 1 by omega, List.drop_append_of_le_length (by omega),
      List.drop_one]
  · rw [if_neg hq]
    unfold takeLast
    simp only [List.length_append, List.length_singleton]
    rw [show l.length + 1 - n = 0 by omega, List.drop_zero]

/-- Keeping the last `n` of a list, extending, and keeping the last `n`
again is the same as keeping the last `n` of the whole extension. -/
theorem takeLast_takeLast_append {α : Type} (n : Nat) (l r : List α) :
    takeLast n (takeLast n l ++ r) = takeLast n (l ++ r) := by
  unfold takeLast
  rw [← List.drop_append_of_le_length (show l.length - n ≤ l.length by omega),
    List.drop_drop]
  congr 1
  simp only [List.length_drop, List.length_append]
  omega

/-- When the batch size exceeds `maxQueueSize`, a push never triggers a
flush and the queue becomes the last `maxQueueSize` elements of the
extended sequence. -/
theorem pushQ_no_flush {α : Type} (cfg : QueueCfg) (ok : Bool) (e : α) (s : QueueState α)
    (hmax : 0 < cfg.maxQueueSize) (hb : cfg.maxQueueSize < cfg.batchSize)
    (hs : s.queue.length ≤ cfg.maxQueueSize) :
    pushQ cfg ok e s = { s with queue := takeLast cfg.maxQueueSize (s.queue ++ [e]) } := by
  have hbound := evict_append_length_le cfg.maxQueueSize hmax s.queue e hs
  simp only [pushQ]
  rw [if_neg (by omega), takeLast_append_elt cfg.maxQueueSize hmax s.queue e hs]

/-- Folding pushes under a flush-free configuration retains exactly the
most recent `maxQueueSize` elements, in push order. -/
theorem pushAll_no_flush {α : Type} (cfg : QueueCfg) (ok : Bool)
    (hmax : 0 < cfg.maxQueueSize) (hb : cfg.maxQueueSize < cfg.batchSize) :
    ∀ (evs : List α) (s : QueueState α), s.queue.length ≤ cfg.maxQueueSize →
      pushAll cfg ok evs s = { s with queue := takeLast cfg.maxQueueSize (s.queue ++ evs) } := by
  intro evs
  induction evs with
  | nil =>
    intro s hs
    simp [pushAll, takeLast, Nat.sub_eq_zero_of_le hs]
  | cons e rest ih =>
    intro s hs
    have hstep : pushAll cfg ok (e :: rest) s = pushAll cfg ok rest (pushQ cfg ok e s) := by
      simp [pushAll]
    rw [hstep, pushQ_no_flush cfg ok e s hmax hb hs,
      ih _ (takeLast_length_le cfg.maxQueueSize (s.queue ++ [e]))]
    simp only [takeLast_takeLast_append, List.append_assoc, List.singleton_append]

/-- C7: for every sequence of pushes starting from an empty queue, the
queue length never exceeds `maxQueueSize`; and whenever the batch-size
flush threshold is out of reach (as in the repository's own eviction
test), the queue afterwards is exactly the most recently pushed
`maxQueueSize` events in push order — the oldest entry having been evicted
on each push at capacity. -/
theorem push_queue_bound_and_suffix {α : Type} (cfg : QueueCfg) (ok : Bool) (evs : List α)
    (h : 0 < cfg.maxQueueSize) :
    (pushAll cfg ok evs (mkQueue [])).queue.length ≤ cfg.maxQueueSize
    ∧ (cfg.maxQueueSize < cfg.batchSize →
        (pushAll cfg ok evs (mkQueue [])).queue = takeLast cfg.maxQueueSize evs) := by
  constructor
  · exact pushAll_length_le cfg ok h evs (mkQueue []) (by simp [mkQueue])
  · intro hb
    rw [pushAll_no_flush cfg ok h hb evs (mkQueue []) (by simp [mkQueue])]
    simp [mkQueue]

/-- Witness for C7: capacity 3, batch size 100, four pushes — the queue is
the last three events `[2, 3, 4]` and its length is within the bound. -/
theorem push_queue_bound_and_suffix_witness :
    (pushAll { batchSize := 100, maxQueueSize := 3 } true ([1, 2, 3, 4] : List Nat)
      (mkQueue [])).queue.length ≤ 3
    ∧ (pushAll { batchSize := 100, maxQueueSize := 3 } true ([1, 2, 3, 4] : List Nat)
        (mkQueue [])).queue = takeLast 3 [1, 2, 3, 4] := by
  have h := push_queue_bound_and_suffix { batchSize := 100, maxQueueSize := 3 } true
    ([1, 2, 3, 4] : List Nat) (by norm_num)
  exact ⟨h.1, h.2 (by norm_num)⟩

set_option maxRecDepth 20000 in
/-- C1 counterexample: the pipeline does transport events while
`canTrack()` is false. Trace A — `waitForConsent` configured, no stored
consent (`canTrack() = false`), one event restored from persistent storage
at construction: the first flush passes it to `sendEvents` with
`canTrack()` still false. Trace B — tracking initially allowed, one event
tracked into the queue, then analytics consent revoked: the next flush
passes the queued event to `sendEvents` although `canTrack()` is false at
that moment. -/
theorem transport_without_consent_counterexample :
    (mkTracker cfgWait none [evA]).consent.canTrack = false
    ∧ (flushTick (mkTracker cfgWait none [evA])).queueSt.calls
        = [{ events := [evA], consentOk := false }]
    ∧ (revokeOp defaultQueueCfg "v1" [ConsentCategory.analytics]
        (track defaultQueueCfg evA (mkTracker cfgNoWait none []))).consent.canTrack = false
    ∧ (flushTick (revokeOp defaultQueueCfg "v1" [ConsentCategory.analytics]
        (track defaultQueueCfg evA (mkTracker cfgNoWait none [])))).queueSt.calls
        = [{ events := [evA], consentOk := false }] := by
  refine ⟨rfl, ?_, rfl, ?_⟩ <;> decide

/-- Calls logged by one `push` are either none or one batch tagged with the
consent flag passed to the push. -/
theorem pushQ_calls {α : Type} (cfg : QueueCfg) (ok : Bool) (e : α) (s : QueueState α) :
    (pushQ cfg ok e s).calls = s.calls
    ∨ ∃ b, (pushQ cfg ok e s).calls = s.calls ++ [{ events := b, consentOk := ok }] := by
  simp only [pushQ]
  by_cases hq : s.queue.length ≥ cfg.maxQueueSize
  · rw [if_pos hq]
    split
    · unfold flushStart
      split
      · exact Or.inl rfl
      · exact Or.inr ⟨_, rfl⟩
    · exact Or.inl rfl
  · rw [if_neg hq]
    split
    · unfold flushStart
      split
      · exact Or.inl rfl
      · exact Or.inr ⟨_, rfl⟩
    · exact Or.inl rfl

/-- C1 (amended): the consent gate holds at `track()` time only. When
`canTrack()` is false, `track` passes nothing to the queue or the
transport — the event is buffered iff `waitForConsent` is configured,
otherwise dropped; and any transport call that `track` does trigger is
made at a moment when `canTrack()` is true. (Events already in the queue
when consent is revoked, and events restored from storage at construction,
are transported by later flushes regardless of `canTrack()`, as the
counterexample shows.) -/
theorem track_consent_gate (qcfg : QueueCfg) (e : TrackingEvent) (s : TrackerState) :
    (s.consent.canTrack = false →
      (track qcfg e s).queueSt = s.queueSt
      ∧ (track qcfg e s).consent.eventBuffer
          = (if s.consent.cfg.waitForConsent then s.consent.eventBuffer ++ [e]
             else s.consent.eventBuffer))
    ∧ ((track qcfg e s).queueSt.calls = s.queueSt.calls
        ∨ ∃ batch, (track qcfg e s).queueSt.calls
            = s.queueSt.calls ++ [{ events := batch, consentOk := true }]) := by
  constructor
  · intro h
    by_cases hw : s.consent.cfg.waitForConsent
    · simp [track, h, hw, ConsentMgr.bufferEvent]
    · simp [track, h, hw]
  · by_cases h : s.consent.canTrack
    · have htrack : track qcfg e s
          = { s with queueSt := pushQ qcfg s.consent.canTrack e s.queueSt } := by
        simp [track, h]
      rw [htrack]
      simp only [h]
      have hc := pushQ_calls qcfg true e s.queueSt
      simpa using hc
    · have h' : s.consent.canTrack = false := by simpa using h
      by_cases hw : s.consent.cfg.waitForConsent
      · simp [track, h', hw]
      · simp [track, h', hw]

/-- Witness for C1 (amended) at a concrete blocked state: `waitForConsent`
configured and no explicit consent — `track` leaves the queue untouched
and buffers the event. -/
theorem track_consent_gate_witness :
    (track defaultQueueCfg evA (mkTracker cfgWait none [])).queueSt
      = (mkTracker cfgWait none []).queueSt
    ∧ (track defaultQueueCfg evA (mkTracker cfgWait none [])).consent.eventBuffer = [evA] := by
  have h := (track_consent_gate defaultQueueCfg evA (mkTracker cfgWait none [])).1 rfl
  refine ⟨h.1, ?_⟩
  rw [h.2]
  rfl

end Clianta
